import Mathlib

/-!
Verification development for the book-catalog enrichment pipeline
(`scripts/enrich.py` and `scripts/build.py`).

The Python code is shallowly embedded: pure helpers become Lean functions,
network calls are abstracted into an `Oracle` of responses, floats become `ℚ`,
and a Python exception escaping a function is modelled as `Except.error`.
String operations (`lower`, `strip`, `title`, `isdigit`) are modelled at ASCII
fidelity, which covers every concrete value appearing in the claims.
-/

/-! ## Basic string helpers (Python `str` methods, ASCII fidelity) -/

/-- Python `s.lower()` as a list of characters (ASCII case mapping). -/
def pyLower (s : String) : List Char := s.data.map Char.toLower

/-- Python `s.lower()` returning a `String`. -/
def pyLowerStr (s : String) : String := String.mk (s.data.map Char.toLower)

/-- Python `s.strip()`: drop leading and trailing whitespace (ASCII fidelity). -/
def pyStrip (s : String) : String :=
  String.mk (((s.data.dropWhile Char.isWhitespace).reverse.dropWhile Char.isWhitespace).reverse)

/-- Python `s.strip('/')`: drop leading and trailing slashes. -/
def stripSlashes (s : String) : String :=
  String.mk (((s.data.dropWhile (· = '/')).reverse.dropWhile (· = '/')).reverse)

/-- Python `s.split('/')[-1]`: the last slash-separated segment. -/
def lastSegment (s : String) : String := (s.splitOn "/").getLastD ""

/-- Core loop of Python `str.title()`: an alphabetic character is uppercased
when the previous character was not alphabetic, lowercased otherwise. -/
def titleCaseGo : Bool → List Char → List Char
  | _, [] => []
  | prevCased, c :: rest =>
    if c.isAlpha then
      (if prevCased then c.toLower else c.toUpper) :: titleCaseGo true rest
    else
      c :: titleCaseGo false rest

/-- Python `s.title()` (ASCII fidelity). -/
def pyTitle (s : String) : String := String.mk (titleCaseGo false s.data)

/-- Python `s.isdigit()` (ASCII fidelity): non-empty and all digits. -/
def pyIsDigitStr (s : String) : Bool := !s.isEmpty && s.data.all Char.isDigit

/-- Numeric value of a digit character. -/
def digitVal (c : Char) : Nat := c.toNat - '0'.toNat

/-- Core of `re.search(r"\d{4}", s)` followed by `int(match.group())`:
the first window of four consecutive digit characters, as a number. -/
def findYearGo : List Char → Option Nat
  | c1 :: c2 :: c3 :: c4 :: rest =>
    if c1.isDigit ∧ c2.isDigit ∧ c3.isDigit ∧ c4.isDigit then
      some (digitVal c1 * 1000 + digitVal c2 * 100 + digitVal c3 * 10 + digitVal c4)
    else
      findYearGo (c2 :: c3 :: c4 :: rest)
  | _ => none

/-- Year extraction used by `enrich_by_isbn` and `enrich_by_work`. -/
def findYear (s : String) : Option Nat := findYearGo s.data

/-! ## difflib.SequenceMatcher

Embedding of CPython's `difflib.SequenceMatcher` restricted to inputs below
the autojunk threshold (every string compared by this program is far shorter
than 200 characters, so the junk machinery never fires).  The quadratic
dynamic program of `find_longest_match` is translated directly; the junk
extension loops at its end are provably no-ops when the junk set is empty and
are omitted. -/

/-- First-match association-list lookup with a default (Python `dict.get`). -/
def lookupD : List (Nat × Nat) → Nat → Nat → Nat
  | [], _, d => d
  | (k', v) :: rest, k, d => if k = k' then v else lookupD rest k d

/-- `b2j` of `SequenceMatcher`: the (increasing) positions of `c` in `b`. -/
def b2j (b : List Char) (c : Char) : List Nat :=
  (List.range b.length).filter (fun j => b.getD j ' ' == c)

/-- Inner loop of `find_longest_match` over the candidate positions `js` of
`a[i]` inside `b`: skips `j < blo`, stops at `j ≥ bhi`, extends the run ending
at `(i-1, j-1)` and records a strictly better best triple. -/
def flmInner (blo bhi i : Nat) (j2len : List (Nat × Nat)) :
    List Nat → (Nat × Nat × Nat) → List (Nat × Nat) → (Nat × Nat × Nat) × List (Nat × Nat)
  | [], best, newRow => (best, newRow)
  | j :: js, best, newRow =>
    if j < blo then flmInner blo bhi i j2len js best newRow
    else if bhi ≤ j then (best, newRow)
    else
      let k := (if j = 0 then 0 else lookupD j2len (j - 1) 0) + 1
      let best' := if best.2.2 < k then (i + 1 - k, j + 1 - k, k) else best
      flmInner blo bhi i j2len js best' ((j, k) :: newRow)

/-- Outer loop of `find_longest_match` over the rows `i = alo, …, ahi-1`. -/
def flmRows (a b : List Char) (blo bhi : Nat) :
    Nat → Nat → (Nat × Nat × Nat) → List (Nat × Nat) → Nat × Nat × Nat
  | 0, _, best, _ => best
  | n + 1, i, best, j2len =>
    let step := flmInner blo bhi i j2len (b2j b (a.getD i ' ')) best []
    flmRows a b blo bhi n (i + 1) step.1 step.2

/-- `SequenceMatcher.find_longest_match` on the window `[alo, ahi) × [blo, bhi)`:
returns `(besti, bestj, bestsize)`. -/
def find_longest_match (a b : List Char) (alo ahi blo bhi : Nat) : Nat × Nat × Nat :=
  flmRows a b blo bhi (ahi - alo) alo (alo, blo, 0) []

/-- Total size of the matching blocks found by `get_matching_blocks` on a
window, with explicit fuel (the recursion depth is bounded by the width of the
`a`-window, which shrinks strictly at every split). -/
def matchTotalAux (a b : List Char) : Nat → Nat → Nat → Nat → Nat → Nat
  | 0, _, _, _, _ => 0
  | fuel + 1, alo, ahi, blo, bhi =>
    let m := find_longest_match a b alo ahi blo bhi
    if m.2.2 = 0 then 0
    else
      (if alo < m.1 ∧ blo < m.2.1 then matchTotalAux a b fuel alo m.1 blo m.2.1 else 0)
        + m.2.2
        + (if m.1 + m.2.2 < ahi ∧ m.2.1 + m.2.2 < bhi then
            matchTotalAux a b fuel (m.1 + m.2.2) ahi (m.2.1 + m.2.2) bhi
          else 0)

/-- Sum of the sizes of all matching blocks between `a` and `b`. -/
def matchTotal (a b : List Char) : Nat :=
  matchTotalAux a b (a.length + 1) 0 a.length 0 b.length

/-- `SequenceMatcher.ratio()`: `2*M / (len(a)+len(b))`, and `1.0` when both
inputs are empty, computed over `ℚ` (the float is an IEEE rounding of this). -/
def pyRatio (a b : List Char) : ℚ :=
  if a.length + b.length = 0 then 1
  else (2 * (matchTotal a b) : ℚ) / ((a.length : ℚ) + (b.length : ℚ))

/-! ## enrich.py: constants and pure helpers -/

/-- `IGNORE_SUBJECTS` from `scripts/enrich.py`. -/
def IGNORE_SUBJECTS : List String :=
  ["accessible book", "protected daisy", "in library", "overdrive", "fiction",
   "nonfiction", "general", "literary", "literature", "open library staff picks",
   "lending library"]

/-- `SUBJECT_MAP` from `scripts/enrich.py`. -/
def SUBJECT_MAP : List (String × String) :=
  [("sci-fi", "Science Fiction"), ("science fiction", "Science Fiction"),
   ("self-help", "Self-Help"), ("selfhelp", "Self-Help"), ("self help", "Self-Help"),
   ("biography", "Biography"), ("biographies", "Biography"),
   ("memoir", "Memoir"), ("memoirs", "Memoir"),
   ("history", "History"), ("historical", "History"),
   ("psychology", "Psychology"), ("philosophy", "Philosophy"),
   ("economics", "Economics"), ("politics", "Politics"),
   ("political science", "Politics")]

/-- First-match lookup in `SUBJECT_MAP` (Python `dict.get` with default). -/
def subjectMapGet : List (String × String) → String → String → String
  | [], _, d => d
  | (k', v) :: rest, k, d => if k = k' then v else subjectMapGet rest k d

/-- `make_cache_key` from `scripts/enrich.py`: `f"{title.lower().strip()}|{author.lower().strip()}"`. -/
def make_cache_key (title author : String) : String :=
  pyStrip (pyLowerStr title) ++ "|" ++ pyStrip (pyLowerStr author)

/-- A candidate document returned by the Open Library search API, with the
fields `enrich_book` reads (`None` models an absent key). -/
structure SearchDoc where
  title : Option String := none
  author_name : Option (List String) := none
  first_publish_year : Option Int := none
  isbn : Option (List String) := none
  subject : Option (List String) := none
  key : Option String := none
  edition_key : Option (List String) := none
deriving DecidableEq

/-- `compute_match_score` from `scripts/enrich.py`:
`0.6 * title_similarity + 0.4 * author_similarity` over lowercased strings. -/
def compute_match_score (query_title query_author : String) (doc : SearchDoc) : ℚ :=
  let title_score := pyRatio (pyLower query_title) (pyLower (doc.title.getD ""))
  let doc_authors := pyLower (String.intercalate " " (doc.author_name.getD []))
  let author_score := pyRatio (pyLower query_author) doc_authors
  title_score * (6 / 10) + author_score * (4 / 10)

/-- `select_best_isbn` from `scripts/enrich.py`: first 13-digit entry, else
first length-10 entry, else none. -/
def select_best_isbn (isbn_list : List String) : Option String :=
  if isbn_list = [] then none
  else
    let isbn13 := isbn_list.filter (fun i => decide (i.length = 13) && pyIsDigitStr i)
    let isbn10 := isbn_list.filter (fun i => decide (i.length = 10))
    match isbn13 with
    | x :: _ => some x
    | [] =>
      match isbn10 with
      | y :: _ => some y
      | [] => none

/-- Loop of `clean_genres` from `scripts/enrich.py`, threading the `seen` set
of lowercased canonical names already emitted. -/
def cleanGenresGo : List String → List String → List String
  | _, [] => []
  | seen, subject :: rest =>
    let lower := pyStrip (pyLowerStr subject)
    if lower ∈ IGNORE_SUBJECTS then cleanGenresGo seen rest
    else if subject.data.any Char.isDigit then cleanGenresGo seen rest
    else if subject.length > 50 then cleanGenresGo seen rest
    else
      let canonical := subjectMapGet SUBJECT_MAP lower (pyTitle subject)
      if pyLowerStr canonical ∈ seen then cleanGenresGo seen rest
      else canonical :: cleanGenresGo (pyLowerStr canonical :: seen) rest

/-- `clean_genres` from `scripts/enrich.py`. -/
def clean_genres (subjects : List String) : List String :=
  (cleanGenresGo [] subjects).take 5

/-- Survival test of the claim for `clean_genres`: lowercase-trimmed form not
in the ignore set, no digit character, length at most 50. -/
def survives (s : String) : Bool :=
  decide (pyStrip (pyLowerStr s) ∉ IGNORE_SUBJECTS) && !(s.data.any Char.isDigit)
    && decide (s.length ≤ 50)

/-- Canonical display form of a surviving subject: canonicalization table at
the lowercase-trimmed key, else title case. -/
def canonicalOf (s : String) : String :=
  subjectMapGet SUBJECT_MAP (pyStrip (pyLowerStr s)) (pyTitle s)

/-- First-occurrence case-insensitive deduplication. -/
def dedupCI : List String → List String → List String
  | _, [] => []
  | seen, x :: xs =>
    if pyLowerStr x ∈ seen then dedupCI seen xs
    else x :: dedupCI (pyLowerStr x :: seen) xs

/-- Modelled from the spec's description of the Subject Normalizer: filter the
survivors, canonicalize each, deduplicate case-insensitively keeping first
occurrences, truncate to five.  Refinement target for `clean_genres`. -/
def cleanGenresSpec (subjects : List String) : List String :=
  (dedupCI [] ((subjects.filter survives).map canonicalOf)).take 5

/-! ## enrich.py: records, responses and the three resolution strategies -/

/-- An enrichment record as built by the strategies in `scripts/enrich.py`.
Python's open dicts are modelled with optional fields; the two `*_used`
snapshot fields are absent (`none`) until `build.py` annotates them. -/
structure EnrichmentRecord where
  official_title : Option String := none
  official_author : Option String := none
  isbn : Option String := none
  year_published : Option Int := none
  subjects : List String := []
  open_library_work_key : Option String := none
  open_library_edition_key : Option String := none
  match_confidence : String := "none"
  fetched_at : String := ""
  error : Option String := none
  isbn_override_used : Option String := none
  olid_work_override_used : Option String := none
deriving DecidableEq

/-- A Python exception escaping a strategy (not a `requests.RequestException`,
hence not caught by the strategy's handler). -/
inductive PyExn where
  | attributeErrorNone
  | indexError
deriving DecidableEq

/-- The three resolution strategies of the orchestrator. -/
inductive ResolveStrategy where
  | byIsbn
  | byWork
  | fuzzy
deriving DecidableEq

/-- Response of `GET /search.json`: either a transport-level failure
(`requests.RequestException`, including bad JSON) or a parsed body. -/
inductive SearchResponse where
  | transportError (msg : String)
  | ok (numFound : Nat) (docs : List SearchDoc)

/-- One `{"name": …}` entry of the `authors` list of `GET /api/books`. -/
structure AuthorEntry where
  name : Option String := none
deriving DecidableEq

/-- One `{"key": …}` entry of the `works` list of `GET /api/books`. -/
structure WorkRef where
  key : Option String := none
deriving DecidableEq

/-- The record under `"ISBN:…"` in a `GET /api/books` response.  A subject
entry is either a plain string (`Sum.inl`) or a `{"name": …}` dict
(`Sum.inr`). -/
structure BookData where
  title : Option String := none
  authors : List AuthorEntry := []
  subjects : Option (List (String ⊕ String)) := none
  works : Option (List WorkRef) := none
  publish_date : Option String := none
  key : Option String := none

/-- Response of `GET /api/books`: transport failure, key absent from the
returned mapping, or the book record. -/
inductive IsbnResponse where
  | transportError (msg : String)
  | notFound
  | found (data : BookData)

/-- The work record fetched by `enrich_by_work`. -/
structure WorkData where
  title : Option String := none
  subjects : List String := []
  first_publish_date : Option String := none

/-- One edition entry of `GET /works/…/editions.json`. -/
structure Edition where
  key : Option String := none
  isbn_13 : List String := []
  isbn_10 : List String := []

/-- Combined response of the work fetch and its editions fetch (both live in
one `try` block; a failure of either is one `RequestException`). -/
inductive WorkResponse where
  | transportError (msg : String)
  | ok (work : WorkData) (editions : List Edition)

/-- The bibliographic source, abstracted: what each endpoint would return for
a given query during this run. -/
structure Oracle where
  isbnResp : String → IsbnResponse
  workResp : String → WorkResponse
  searchResp : String → String → SearchResponse

/-- The scoring loop of `enrich_book`: running best match and best score,
starting from `(None, 0)`; a candidate replaces the best only when its score
is strictly greater. -/
def bestFold (title author : String) (docs : List SearchDoc) : Option SearchDoc × ℚ :=
  docs.foldl
    (fun acc doc =>
      let score := compute_match_score title author doc
      if acc.2 < score then (some doc, score) else acc)
    (none, 0)

/-- Confidence bucketing of `enrich_book` (`0.9 / 0.7 / 0.5` thresholds). -/
def bucketConfidence (best_score : ℚ) : String :=
  if 9 / 10 ≤ best_score then "high"
  else if 7 / 10 ≤ best_score then "medium"
  else if 1 / 2 ≤ best_score then "low"
  else "none"

/-- Python `best_match.get('edition_key', [None])[0]`: `None` when the key is
absent, `IndexError` when the stored list is empty, else its head. -/
def editionKeyHead : Option (List String) → Except PyExn (Option String)
  | none => .ok none
  | some [] => .error .indexError
  | some (x :: _) => .ok (some x)

/-- Python `', '.join(author_names) if author_names else None`. -/
def joinAuthors (names : List String) : Option String :=
  if names = [] then none else some (String.intercalate ", " names)

/-- `enrich_book` from `scripts/enrich.py` (the Fuzzy-Search strategy).
A `requests.RequestException` is caught and produces an error record; zero
results produce an error record; otherwise the candidates are scored and the
best one populates the record.  When every candidate scores 0 the Python
`best_match` is still `None` and `best_match.get` raises `AttributeError`;
when the best candidate's `edition_key` is an empty list, `[...][0]` raises
`IndexError`.  Both escapes are modelled as `Except.error`. -/
def enrich_book (o : Oracle) (now : String) (title author : String) :
    Except PyExn EnrichmentRecord :=
  match o.searchResp title author with
  | .transportError msg =>
    .ok { match_confidence := "none", error := some ("API error: " ++ msg),
          fetched_at := now }
  | .ok numFound docs =>
    if numFound = 0 then
      .ok { match_confidence := "none", error := some "No results found",
            fetched_at := now }
    else
      match bestFold title author docs with
      | (none, _) => .error .attributeErrorNone
      | (some best, best_score) =>
        match editionKeyHead best.edition_key with
        | .error e => .error e
        | .ok ek =>
          .ok { official_title := best.title,
                official_author := joinAuthors (best.author_name.getD []),
                isbn := select_best_isbn (best.isbn.getD []),
                year_published := best.first_publish_year,
                subjects := (best.subject.getD []).take 10,
                open_library_work_key := best.key,
                open_library_edition_key := ek,
                match_confidence := bucketConfidence best_score,
                fetched_at := now }

/-- Work-key normalization of `enrich_by_work`, including the source's quirk
of re-prefixing the unstripped `work_id`. -/
def normalizeWorkKey (work_id : String) : String :=
  let work_key := stripSlashes work_id
  if work_key.startsWith "works/" then work_key else "works/" ++ work_id

/-- Edition scan of `enrich_by_work`: the edition key tracks every visited
edition; iteration stops at the first edition with a non-empty ISBN list. -/
def scanEditions : Option String → Option String → List Edition → Option String × Option String
  | isbn, ek, [] => (isbn, ek)
  | isbn, _, ed :: rest =>
    let ek' := some (lastSegment (ed.key.getD ""))
    match ed.isbn_13 ++ ed.isbn_10 with
    | [] => scanEditions isbn ek' rest
    | x :: _ => (some x, ek')

/-- `enrich_by_work` from `scripts/enrich.py` (the By-Work-Identifier
strategy), paired with the list of strategies it invokes.  A transport
failure falls back to `enrich_book` on the same title and author. -/
def enrich_by_work (o : Oracle) (now : String) (work_id title author : String) :
    Except PyExn EnrichmentRecord × List ResolveStrategy :=
  let work_key := normalizeWorkKey work_id
  match o.workResp work_key with
  | .transportError _ =>
    (enrich_book o now title author, [ResolveStrategy.byWork, ResolveStrategy.fuzzy])
  | .ok work_data editions =>
    let scan := scanEditions none none editions
    let year_published : Option Int :=
      match work_data.first_publish_date with
      | none => none
      | some fp => if fp = "" then none else (findYear fp).map Int.ofNat
    (.ok { official_title := work_data.title,
           official_author := none,
           isbn := scan.1,
           year_published := year_published,
           subjects := work_data.subjects.take 10,
           open_library_work_key := some ("/" ++ work_key),
           open_library_edition_key := scan.2,
           match_confidence := "work_override",
           fetched_at := now }, [ResolveStrategy.byWork])

/-- Unwrapping of one subject entry in `enrich_by_isbn`:
`s.get('name', s) if isinstance(s, dict) else s`. -/
def subjectName : String ⊕ String → String
  | .inl s => s
  | .inr nm => nm

/-- `enrich_by_isbn` from `scripts/enrich.py` (the By-ISBN strategy), paired
with the list of strategies it invokes.  Both a transport failure and an
absent ISBN key fall back to `enrich_book` on the same title and author. -/
def enrich_by_isbn (o : Oracle) (now : String) (isbn title author : String) :
    Except PyExn EnrichmentRecord × List ResolveStrategy :=
  match o.isbnResp isbn with
  | .transportError _ =>
    (enrich_book o now title author, [ResolveStrategy.byIsbn, ResolveStrategy.fuzzy])
  | .notFound =>
    (enrich_book o now title author, [ResolveStrategy.byIsbn, ResolveStrategy.fuzzy])
  | .found book_data =>
    let official_author :=
      if book_data.authors = [] then none
      else some (String.intercalate ", " (book_data.authors.map (fun a => a.name.getD "")))
    let subjects : List String :=
      match book_data.subjects with
      | none => []
      | some l => l.map subjectName
    let work_key :=
      match book_data.works with
      | some (w :: _) => w.key
      | _ => none
    let year_published : Option Int :=
      match book_data.publish_date with
      | none => none
      | some pd => (findYear pd).map Int.ofNat
    let edition_key :=
      match book_data.key with
      | some s => some (lastSegment s)
      | none => none
    (.ok { official_title := book_data.title,
           official_author := official_author,
           isbn := some isbn,
           year_published := year_published,
           subjects := subjects.take 10,
           open_library_work_key := work_key,
           open_library_edition_key := edition_key,
           match_confidence := "isbn",
           fetched_at := now }, [ResolveStrategy.byIsbn])

/-! ## The orchestrator (`enrich_books` loop body) and build.py cache logic -/

/-- A user-supplied book row, restricted to the fields the enrichment and
cache logic reads (the presentation-only columns are never consulted here). -/
structure Book where
  title : String
  author : String
  isbn_override : Option String := none
  olid_work_override : Option String := none
deriving DecidableEq

/-- Python truthiness of an optional string: `None` and `""` are falsy. -/
def optTruthy : Option String → Bool
  | none => false
  | some s => !s.isEmpty

/-- Cache key of a book. -/
def keyOf (b : Book) : String := make_cache_key b.title b.author

/-- Per-book dispatch of `enrich_books` (`scripts/enrich.py`, loop body):
ISBN override first, then work-identifier override, else fuzzy search.
Returns the strategy invocation list alongside the result. -/
def enrichOne (o : Oracle) (now : String) (book : Book) :
    Except PyExn EnrichmentRecord × List ResolveStrategy :=
  if optTruthy book.isbn_override then
    enrich_by_isbn o now (book.isbn_override.getD "") book.title book.author
  else if optTruthy book.olid_work_override then
    enrich_by_work o now (book.olid_work_override.getD "") book.title book.author
  else
    (enrich_book o now book.title book.author, [ResolveStrategy.fuzzy])

/-- The enrichment cache: a finite mapping from cache key to record. -/
abbrev CacheDict := String → Option EnrichmentRecord

/-- The empty cache. -/
def dictEmpty : CacheDict := fun _ => none

/-- Python `d[k] = v`. -/
def dictInsert (k : String) (v : EnrichmentRecord) (m : CacheDict) : CacheDict :=
  fun k' => if k' = k then some v else m k'

/-- Python `base.update(new)`: keys of `new` win. -/
def dictUpdate (base new : CacheDict) : CacheDict :=
  fun k => match new k with
    | some v => some v
    | none => base k

/-- The refresh decision of `scripts/build.py` (step 4 of `main`): a book is
re-enriched iff its key is absent from the cache or either current override
differs from the snapshot stored in the cached entry. -/
def needs_refresh (book : Book) (cache : CacheDict) : Bool :=
  match cache (keyOf book) with
  | none => true
  | some entry =>
    if book.isbn_override ≠ entry.isbn_override_used then true
    else if book.olid_work_override ≠ entry.olid_work_override_used then true
    else false

/-- The `results` dict built by `enrich_books` over a completed run, with
`resolve` standing for the record the chosen strategy produced for each book
(later books overwrite earlier ones on a key collision). -/
def enrich_booksDict (resolve : Book → EnrichmentRecord) (books : List Book) : CacheDict :=
  books.foldl (fun m b => dictInsert (keyOf b) (resolve b) m) dictEmpty

/-- Annotation of a freshly fetched record with the override values active at
fetch time (`scripts/build.py`, step 5). -/
def setSnapshots (b : Book) (r : EnrichmentRecord) : EnrichmentRecord :=
  { r with isbn_override_used := b.isbn_override,
           olid_work_override_used := b.olid_work_override }

/-- The snapshot-annotation loop of `scripts/build.py` (step 5): for each
enriched book in order, rewrite its cache entry's two snapshot fields. -/
def annotateSnapshots (to_enrich : List Book) (m : CacheDict) : CacheDict :=
  to_enrich.foldl
    (fun m b =>
      match m (keyOf b) with
      | some r => dictInsert (keyOf b) (setSnapshots b r) m
      | none => m)
    m

/-- Steps 4–5 of `main` in `scripts/build.py` on a completed run: select the
books needing refresh, enrich them, annotate the snapshots, and merge the new
records into the cache by whole-record `dict.update`. -/
def run_build_cache (resolve : Book → EnrichmentRecord) (books : List Book)
    (cache : CacheDict) : CacheDict :=
  let to_enrich := books.filter (fun b => needs_refresh b cache)
  if to_enrich.isEmpty then cache
  else dictUpdate cache (annotateSnapshots to_enrich (enrich_booksDict resolve to_enrich))

/-! ## Concrete fixtures used by witnesses and counterexamples -/

/-- An oracle on which every lookup misses or fails. -/
def oracleMiss : Oracle :=
  { isbnResp := fun _ => IsbnResponse.notFound,
    workResp := fun _ => WorkResponse.transportError "connection refused",
    searchResp := fun _ _ => SearchResponse.ok 0 [] }

/-- A book carrying an ISBN override. -/
def bookWithIsbn : Book :=
  { title := "Dune", author := "Frank Herbert", isbn_override := some "9780441013593" }

/-- A search candidate sharing no character with the query "Dune" by
"Frank Herbert": both similarity ratios are zero, so its score is zero. -/
def docZero : SearchDoc := { title := some "XYZ", author_name := some [] }

/-- An oracle whose search returns exactly the zero-scoring candidate. -/
def oracleZeroScore : Oracle :=
  { isbnResp := fun _ => IsbnResponse.notFound,
    workResp := fun _ => WorkResponse.transportError "connection refused",
    searchResp := fun _ _ => SearchResponse.ok 1 [docZero] }


/-! ## Helper lemmas -/

/-- Looking up the key just inserted returns the inserted record. -/
theorem dictInsert_self (k : String) (v : EnrichmentRecord) (m : CacheDict) :
    dictInsert k v m k = some v := by
  simp [dictInsert]

/-- Looking up any other key is unaffected by an insertion. -/
theorem dictInsert_other {k k' : String} (h : k' ≠ k) (v : EnrichmentRecord) (m : CacheDict) :
    dictInsert k v m k' = m k' := by
  simp [dictInsert, h]

/-- Evaluation rule for `pyRatio` on concrete data: once the match total and
the two lengths are computed, the ratio is their quotient. -/
theorem pyRatio_eval (a b : List Char) (m n p : Nat) (hm : matchTotal a b = m)
    (hn : a.length = n) (hp : b.length = p) (h : n + p ≠ 0) :
    pyRatio a b = (2 * m : ℚ) / ((n : ℚ) + (p : ℚ)) := by
  unfold pyRatio
  rw [hm, hn, hp, if_neg h]

/-- `bestFold` over a single candidate: selected iff its score is positive. -/
theorem bestFold_single (t a : String) (d : SearchDoc) :
    bestFold t a [d] =
      if 0 < compute_match_score t a d then (some d, compute_match_score t a d)
      else (none, 0) := by
  unfold bestFold
  simp [List.foldl]

/-- When the search succeeds with a nonzero `numFound` but no candidate ever
beats the initial score `0`, `enrich_book` escapes with `AttributeError`. -/
theorem enrich_book_crash (o : Oracle) (now title author : String) (n : Nat)
    (docs : List SearchDoc) (ho : o.searchResp title author = SearchResponse.ok n docs)
    (hn : n ≠ 0) (hbest : (bestFold title author docs).1 = none) :
    enrich_book o now title author = Except.error PyExn.attributeErrorNone := by
  unfold enrich_book
  simp only [ho]
  rw [if_neg hn]
  rcases hb : bestFold title author docs with ⟨bm, s⟩
  rw [hb] at hbest
  rcases bm with _ | d
  · rfl
  · simp at hbest

/-- When the search succeeds, a best candidate exists, and its edition-key
access does not raise, `enrich_book` returns the record populated from that
candidate with the bucketed confidence. -/
theorem enrich_book_ok (o : Oracle) (now title author : String) (n : Nat)
    (docs : List SearchDoc) (d : SearchDoc) (s : ℚ) (ek : Option String)
    (ho : o.searchResp title author = SearchResponse.ok n docs) (hn : n ≠ 0)
    (hbest : bestFold title author docs = (some d, s))
    (hek : editionKeyHead d.edition_key = Except.ok ek) :
    enrich_book o now title author =
      Except.ok
        { official_title := d.title,
          official_author := joinAuthors (d.author_name.getD []),
          isbn := select_best_isbn (d.isbn.getD []),
          year_published := d.first_publish_year,
          subjects := (d.subject.getD []).take 10,
          open_library_work_key := d.key,
          open_library_edition_key := ek,
          match_confidence := bucketConfidence s,
          fetched_at := now } := by
  unfold enrich_book
  simp only [ho]
  rw [if_neg hn, hbest]
  simp [hek]

/-- The score of the zero-overlap candidate `docZero` against the query
"Dune" / "Frank Herbert" is exactly `0`. -/
theorem score_docZero : compute_match_score "Dune" "Frank Herbert" docZero = 0 := by
  unfold compute_match_score docZero
  simp only [Option.getD]
  rw [pyRatio_eval _ _ 0 4 3 (by decide) (by decide) (by decide) (by decide),
      pyRatio_eval _ _ 0 13 0 (by decide) (by decide) (by decide) (by decide)]
  norm_num

/-! ## Claim theorems -/

/-- C1: for every book the orchestrator loop body applies exactly one
strategy, chosen by precedence — a truthy `isbn_override` selects By-ISBN,
else a truthy `olid_work_override` selects By-Work-Identifier, else
Fuzzy-Search — and the only further strategy that can run is the chosen
strategy's internal fallback to Fuzzy-Search. -/
theorem enrichOne_strategy_precedence (o : Oracle) (now : String) (book : Book) :
    (optTruthy book.isbn_override = true →
      ((enrichOne o now book).2 = [ResolveStrategy.byIsbn] ∨
       (enrichOne o now book).2 = [ResolveStrategy.byIsbn, ResolveStrategy.fuzzy])) ∧
    (optTruthy book.isbn_override = false → optTruthy book.olid_work_override = true →
      ((enrichOne o now book).2 = [ResolveStrategy.byWork] ∨
       (enrichOne o now book).2 = [ResolveStrategy.byWork, ResolveStrategy.fuzzy])) ∧
    (optTruthy book.isbn_override = false → optTruthy book.olid_work_override = false →
      (enrichOne o now book).2 = [ResolveStrategy.fuzzy]) := by
  refine ⟨fun h1 => ?_, fun h1 h2 => ?_, fun h1 h2 => ?_⟩
  · rw [show enrichOne o now book =
        enrich_by_isbn o now (book.isbn_override.getD "") book.title book.author from by
      unfold enrichOne; rw [if_pos h1]]
    unfold enrich_by_isbn
    cases o.isbnResp (book.isbn_override.getD "") with
    | transportError msg => right; rfl
    | notFound => right; rfl
    | found bd => left; rfl
  · rw [show enrichOne o now book =
        enrich_by_work o now (book.olid_work_override.getD "") book.title book.author from by
      unfold enrichOne; rw [if_neg (by simp [h1]), if_pos h2]]
    cases h : o.workResp (normalizeWorkKey (book.olid_work_override.getD "")) with
    | transportError msg => right; simp [enrich_by_work, h]
    | ok wd eds => left; simp [enrich_by_work, h]
  · unfold enrichOne
    rw [if_neg (by simp [h1]), if_neg (by simp [h2])]

/-- Witness for C1 at a concrete book with an ISBN override and an oracle on
which the ISBN lookup misses (so the internal fallback also runs). -/
theorem enrichOne_strategy_precedence_witness :
    optTruthy bookWithIsbn.isbn_override = true ∧
    ((enrichOne oracleMiss "" bookWithIsbn).2 = [ResolveStrategy.byIsbn] ∨
     (enrichOne oracleMiss "" bookWithIsbn).2 = [ResolveStrategy.byIsbn, ResolveStrategy.fuzzy]) :=
  ⟨rfl, (enrichOne_strategy_precedence oracleMiss "" bookWithIsbn).1 rfl⟩

/-- C2 (code bug): the spec promises that resolution never raises out of the
batch, but when the search source returns a non-empty candidate list in which
every candidate scores `0.0` (here: one candidate sharing no character with
the query), `enrich_book`'s `best_match` is still `None` and
`best_match.get('isbn', [])` raises `AttributeError` instead of producing an
empty record with confidence `none` and an error string. -/
theorem enrich_book_zero_score_raises :
    enrich_book oracleZeroScore "" "Dune" "Frank Herbert" =
      Except.error PyExn.attributeErrorNone := by
  apply enrich_book_crash _ _ _ _ 1 [docZero] rfl (by decide)
  rw [bestFold_single]
  rw [score_docZero]
  simp

/-- C3: the cache reconciler marks a book for re-enrichment iff its cache key
is absent from the cache, or its current `isbn_override` differs from the
snapshotted `isbn_override_used`, or its current `olid_work_override` differs
from the snapshotted `olid_work_override_used`; in particular it returns
`false` whenever both override fields match their snapshots exactly. -/
theorem needs_refresh_iff (book : Book) (cache : CacheDict) :
    (needs_refresh book cache = true ↔
      (cache (keyOf book) = none ∨
       ∃ e, cache (keyOf book) = some e ∧
         (book.isbn_override ≠ e.isbn_override_used ∨
          book.olid_work_override ≠ e.olid_work_override_used))) ∧
    (∀ e, cache (keyOf book) = some e →
      book.isbn_override = e.isbn_override_used →
      book.olid_work_override = e.olid_work_override_used →
      needs_refresh book cache = false) := by
  constructor
  · unfold needs_refresh
    cases h : cache (keyOf book) with
    | none => simp
    | some e =>
      by_cases h1 : book.isbn_override = e.isbn_override_used <;>
        by_cases h2 : book.olid_work_override = e.olid_work_override_used <;>
        simp [h1, h2]
  · intro e he h1 h2
    unfold needs_refresh
    rw [he]
    simp [h1, h2]

/-- Witness for C3: a book whose cache entry snapshots both of its (absent)
overrides exactly is not marked for refresh. -/
theorem needs_refresh_iff_witness :
    needs_refresh { title := "Dune", author := "Frank Herbert" }
      (dictInsert (keyOf { title := "Dune", author := "Frank Herbert" }) {} dictEmpty) = false :=
  (needs_refresh_iff { title := "Dune", author := "Frank Herbert" }
      (dictInsert (keyOf { title := "Dune", author := "Frank Herbert" }) {} dictEmpty)).2
    {} (dictInsert_self _ _ _) rfl rfl

/-- A fold of insertions never touches a key that none of the books carry. -/
theorem enrichFold_notmem (resolve : Book → EnrichmentRecord) :
    ∀ (l : List Book) (m : CacheDict) (k : String), (∀ b ∈ l, keyOf b ≠ k) →
      l.foldl (fun m b => dictInsert (keyOf b) (resolve b) m) m k = m k := by
  intro l
  induction l with
  | nil => intro m k _; rfl
  | cons b rest ih =>
    intro m k h
    rw [List.foldl_cons]
    rw [ih _ k (fun x hx => h x (List.mem_cons_of_mem _ hx))]
    exact dictInsert_other (Ne.symm (h b (List.mem_cons_self _ _))) _ _

/-- Under pairwise-distinct cache keys, the fold of insertions maps each
book's key to that book's record. -/
theorem enrichFold_mem (resolve : Book → EnrichmentRecord) :
    ∀ (l : List Book) (m : CacheDict) (b : Book), b ∈ l →
      l.Pairwise (fun x y => keyOf x ≠ keyOf y) →
      l.foldl (fun m x => dictInsert (keyOf x) (resolve x) m) m (keyOf b) =
        some (resolve b) := by
  intro l
  induction l with
  | nil => intro m b hb; exact absurd hb (List.not_mem_nil _)
  | cons c rest ih =>
    intro m b hb hp
    rw [List.foldl_cons]
    rcases List.mem_cons.mp hb with rfl | hb'
    · rw [enrichFold_notmem resolve rest _ (keyOf b)
        (fun x hx => Ne.symm ((List.pairwise_cons.mp hp).1 x hx))]
      exact dictInsert_self _ _ _
    · exact ih _ b hb' (List.pairwise_cons.mp hp).2

/-- The snapshot-annotation loop never touches a key that none of the books
carry. -/
theorem annotate_notmem :
    ∀ (l : List Book) (m : CacheDict) (k : String), (∀ b ∈ l, keyOf b ≠ k) →
      annotateSnapshots l m k = m k := by
  intro l
  induction l with
  | nil => intro m k _; rfl
  | cons b rest ih =>
    intro m k h
    have h2 : (match m (keyOf b) with
        | some r => dictInsert (keyOf b) (setSnapshots b r) m
        | none => m) k = m k := by
      cases hm : m (keyOf b) with
      | none => rfl
      | some r => exact dictInsert_other (Ne.symm (h b (List.mem_cons_self _ _))) _ _
    exact (ih _ k (fun x hx => h x (List.mem_cons_of_mem _ hx))).trans h2

/-- Under pairwise-distinct cache keys, the snapshot-annotation loop rewrites
each present entry's snapshot fields from its own book, and nothing else. -/
theorem annotate_mem :
    ∀ (l : List Book) (m : CacheDict) (b : Book) (r : EnrichmentRecord), b ∈ l →
      l.Pairwise (fun x y => keyOf x ≠ keyOf y) → m (keyOf b) = some r →
      annotateSnapshots l m (keyOf b) = some (setSnapshots b r) := by
  intro l
  induction l with
  | nil => intro m b r hb; exact absurd hb (List.not_mem_nil _)
  | cons c rest ih =>
    intro m b r hb hp hm
    rcases List.mem_cons.mp hb with rfl | hb'
    · have hstep : (match m (keyOf b) with
          | some r0 => dictInsert (keyOf b) (setSnapshots b r0) m
          | none => m) (keyOf b) = some (setSnapshots b r) := by
        rw [hm]
        exact dictInsert_self _ _ _
      exact (annotate_notmem rest _ (keyOf b)
        (fun x hx => Ne.symm ((List.pairwise_cons.mp hp).1 x hx))).trans hstep
    · have hck : keyOf c ≠ keyOf b := (List.pairwise_cons.mp hp).1 b hb'
      have hstep :
          (match m (keyOf c) with
            | some r' => dictInsert (keyOf c) (setSnapshots c r') m
            | none => m) (keyOf b) = some r := by
        cases hmc : m (keyOf c) with
        | none => exact hm
        | some r' => exact (dictInsert_other (Ne.symm hck) _ _).trans hm
      exact ih _ b r hb' (List.pairwise_cons.mp hp).2 hstep

/-- Core description of the cache produced by steps 4–5 of `build.py` at the
key of any input book, assuming the input is pre-deduplicated by cache key:
a refreshed book's key maps to its freshly resolved record annotated with its
overrides; any other book's key maps to whatever the loaded cache held. -/
theorem run_build_cache_lookup (resolve : Book → EnrichmentRecord) (books : List Book)
    (cache : CacheDict) (hd : books.Pairwise (fun x y => keyOf x ≠ keyOf y))
    (b : Book) (hb : b ∈ books) :
    run_build_cache resolve books cache (keyOf b) =
      if needs_refresh b cache then some (setSnapshots b (resolve b))
      else cache (keyOf b) := by
  have hdf : (books.filter (fun x => needs_refresh x cache)).Pairwise
      (fun x y => keyOf x ≠ keyOf y) := hd.sublist (List.filter_sublist _)
  by_cases hp : needs_refresh b cache
  · rw [if_pos hp]
    have hmem : b ∈ books.filter (fun x => needs_refresh x cache) :=
      List.mem_filter.mpr ⟨hb, hp⟩
    have hne : ¬(books.filter (fun x => needs_refresh x cache)).isEmpty = true := by
      rw [List.isEmpty_iff]
      exact List.ne_nil_of_mem hmem
    unfold run_build_cache
    rw [if_neg hne]
    have hfold : enrich_booksDict resolve (books.filter (fun x => needs_refresh x cache))
        (keyOf b) = some (resolve b) :=
      enrichFold_mem resolve _ dictEmpty b hmem hdf
    have hann := annotate_mem _ (enrich_booksDict resolve
      (books.filter (fun x => needs_refresh x cache))) b (resolve b) hmem hdf hfold
    unfold dictUpdate
    rw [hann]
  · rw [if_neg hp]
    have hout : ∀ x ∈ books.filter (fun x => needs_refresh x cache), keyOf x ≠ keyOf b := by
      intro x hx
      rcases List.mem_filter.mp hx with ⟨hxb, hxr⟩
      intro hkey
      rcases eq_or_ne x b with rfl | hne
      · exact hp hxr
      · exact hd.forall (fun _ _ h => Ne.symm h) hxb hb hne hkey
    unfold run_build_cache
    by_cases he : (books.filter (fun x => needs_refresh x cache)).isEmpty = true
    · rw [if_pos he]
    · rw [if_neg he]
      have hfold : enrich_booksDict resolve (books.filter (fun x => needs_refresh x cache))
          (keyOf b) = none :=
        enrichFold_notmem resolve _ dictEmpty (keyOf b) hout
      have hann := annotate_notmem _ (enrich_booksDict resolve
        (books.filter (fun x => needs_refresh x cache))) (keyOf b) hout
      unfold dictUpdate
      rw [hann, hfold]

/-- Two input rows sharing one cache key but disagreeing on `isbn_override`. -/
def bookDupA : Book :=
  { title := "Dune", author := "Frank Herbert", isbn_override := some "9780441013593" }

/-- The colliding row without an override. -/
def bookDupB : Book := { title := "Dune", author := "Frank Herbert" }

/-- A fixed stand-in for whatever record the strategies produced. -/
def constResolve : Book → EnrichmentRecord := fun _ => {}

/-- C4 (amended): on an input pre-deduplicated by cache key, a second run on
the unchanged book list over the cache produced by the first run marks no
book for enrichment — every key is present and both overrides equal their
snapshots — hence the second run performs zero new network lookups. -/
theorem second_run_no_refresh (resolve : Book → EnrichmentRecord) (books : List Book)
    (cache : CacheDict) (hd : books.Pairwise (fun x y => keyOf x ≠ keyOf y)) :
    books.filter (fun b => needs_refresh b (run_build_cache resolve books cache)) = [] := by
  rw [List.filter_eq_nil_iff]
  intro b hb
  have hcore := run_build_cache_lookup resolve books cache hd b hb
  by_cases hp : needs_refresh b cache
  · rw [if_pos hp] at hcore
    have : needs_refresh b (run_build_cache resolve books cache) = false := by
      unfold needs_refresh
      rw [hcore]
      simp [setSnapshots]
    simp [this]
  · rw [if_neg hp] at hcore
    have : needs_refresh b (run_build_cache resolve books cache) =
        needs_refresh b cache := by
      unfold needs_refresh
      rw [hcore]
    simp [this, hp]

/-- Witness for C4's theorem at a concrete singleton book list over the empty
cache. -/
theorem second_run_no_refresh_witness :
    [bookDupA].Pairwise (fun x y => keyOf x ≠ keyOf y) ∧
    [bookDupA].filter
      (fun b => needs_refresh b (run_build_cache constResolve [bookDupA] dictEmpty)) = [] :=
  ⟨List.pairwise_singleton _ _,
   second_run_no_refresh constResolve [bookDupA] dictEmpty (List.pairwise_singleton _ _)⟩

/-- Counterexample to C4 as stated: with two rows colliding on one cache key
but disagreeing on `isbn_override`, the first run's cache snapshots only the
last row's overrides, so the second run on the unchanged list marks the first
row for enrichment again (a new network lookup). -/
theorem second_run_refresh_counterexample :
    [bookDupA, bookDupB].filter
      (fun b => needs_refresh b (run_build_cache constResolve [bookDupA, bookDupB] dictEmpty))
      ≠ [] := by
  intro h
  have hmem : bookDupA ∈ [bookDupA, bookDupB].filter
      (fun b => needs_refresh b (run_build_cache constResolve [bookDupA, bookDupB] dictEmpty)) := by
    rw [List.mem_filter]
    refine ⟨by simp, ?_⟩
    rfl
  rw [h] at hmem
  exact List.not_mem_nil _ hmem

/-- C9: assuming the input is pre-deduplicated by cache key, after a run the
key of a book that did not need refresh maps to exactly the record the loaded
cache held for it, and the key of a refreshed book maps to the whole record
the orchestrator produced for it, annotated with the overrides active at
fetch time — independent of whatever the old entry contained. -/
theorem cache_merge_frame (resolve : Book → EnrichmentRecord) (books : List Book)
    (cache : CacheDict) (hd : books.Pairwise (fun x y => keyOf x ≠ keyOf y)) :
    ∀ b ∈ books,
      (needs_refresh b cache = false →
        run_build_cache resolve books cache (keyOf b) = cache (keyOf b)) ∧
      (needs_refresh b cache = true →
        run_build_cache resolve books cache (keyOf b) =
          some (setSnapshots b (resolve b))) := by
  intro b hb
  have hcore := run_build_cache_lookup resolve books cache hd b hb
  constructor
  · intro hp
    rwa [hp] at hcore
  · intro hp
    rwa [if_pos hp] at hcore

/-- Witness for C9: a concrete refreshed book's entry is the whole annotated
record, and with a matching cached entry the cache is untouched. -/
theorem cache_merge_frame_witness :
    needs_refresh bookDupA dictEmpty = true ∧
    run_build_cache constResolve [bookDupA] dictEmpty (keyOf bookDupA) =
      some (setSnapshots bookDupA (constResolve bookDupA)) :=
  ⟨rfl,
   (cache_merge_frame constResolve [bookDupA] dictEmpty
      (List.pairwise_singleton _ _) bookDupA (by simp)).2 rfl⟩

/-- The single-pass genre loop equals filter–canonicalize–deduplicate with any
carried `seen` set. -/
theorem cleanGenresGo_eq_spec (l : List String) : ∀ (seen : List String),
    cleanGenresGo seen l = dedupCI seen ((l.filter survives).map canonicalOf) := by
  induction l with
  | nil => intro seen; rfl
  | cons s rest ih =>
    intro seen
    by_cases h1 : pyStrip (pyLowerStr s) ∈ IGNORE_SUBJECTS
    · have hs : ¬survives s = true := by simp [survives, h1]
      rw [List.filter_cons_of_neg hs]
      rw [show cleanGenresGo seen (s :: rest) = cleanGenresGo seen rest from by
        simp [cleanGenresGo, h1]]
      exact ih seen
    · by_cases h2 : s.data.any Char.isDigit
      · have hs : ¬survives s = true := by simp [survives, h2]
        rw [List.filter_cons_of_neg hs]
        rw [show cleanGenresGo seen (s :: rest) = cleanGenresGo seen rest from by
          simp [cleanGenresGo, h1, h2]]
        exact ih seen
      · by_cases h3 : s.length > 50
        · have hs : ¬survives s = true := by
            simp [survives, h1, h2]
            omega
          rw [List.filter_cons_of_neg hs]
          rw [show cleanGenresGo seen (s :: rest) = cleanGenresGo seen rest from by
            simp [cleanGenresGo, h1, h2, h3]]
          exact ih seen
        · have hs : survives s = true := by
            simp [survives, h1, h2]
            omega
          rw [List.filter_cons_of_pos hs, List.map_cons]
          by_cases h4 : pyLowerStr (canonicalOf s) ∈ seen
          · rw [show dedupCI seen (canonicalOf s :: (rest.filter survives).map canonicalOf) =
                dedupCI seen ((rest.filter survives).map canonicalOf) from by
              simp [dedupCI, h4]]
            rw [show cleanGenresGo seen (s :: rest) = cleanGenresGo seen rest from by
              simp only [cleanGenresGo]
              rw [if_neg h1, if_neg (by simp [h2]), if_neg (by omega)]
              simp only [canonicalOf] at h4
              rw [if_pos h4]]
            exact ih seen
          · rw [show dedupCI seen (canonicalOf s :: (rest.filter survives).map canonicalOf) =
                canonicalOf s ::
                  dedupCI (pyLowerStr (canonicalOf s) :: seen)
                    ((rest.filter survives).map canonicalOf) from by
              simp [dedupCI, h4]]
            rw [show cleanGenresGo seen (s :: rest) =
                canonicalOf s :: cleanGenresGo (pyLowerStr (canonicalOf s) :: seen) rest from by
              simp only [cleanGenresGo]
              rw [if_neg h1, if_neg (by simp [h2]), if_neg (by omega)]
              simp only [canonicalOf] at h4 ⊢
              rw [if_neg h4]]
            rw [ih (pyLowerStr (canonicalOf s) :: seen)]

/-- First-occurrence case-insensitive deduplication yields pairwise-distinct
lowercase forms, none of which were already seen. -/
theorem dedupCI_pairwise (l : List String) : ∀ (seen : List String),
    (dedupCI seen l).Pairwise (fun x y => pyLowerStr x ≠ pyLowerStr y) ∧
    ∀ x ∈ dedupCI seen l, pyLowerStr x ∉ seen := by
  induction l with
  | nil => intro seen; exact ⟨List.Pairwise.nil, by intro x hx; exact absurd hx (List.not_mem_nil _)⟩
  | cons s rest ih =>
    intro seen
    by_cases h : pyLowerStr s ∈ seen
    · rw [show dedupCI seen (s :: rest) = dedupCI seen rest from by simp [dedupCI, h]]
      exact ih seen
    · rw [show dedupCI seen (s :: rest) =
          s :: dedupCI (pyLowerStr s :: seen) rest from by simp [dedupCI, h]]
      refine ⟨List.Pairwise.cons ?_ (ih (pyLowerStr s :: seen)).1, ?_⟩
      · intro y hy heq
        exact (ih (pyLowerStr s :: seen)).2 y hy (heq ▸ List.mem_cons_self _ _)
      · intro x hx
        rcases List.mem_cons.mp hx with rfl | hx'
        · exact h
        · intro hxs
          exact (ih (pyLowerStr s :: seen)).2 x hx' (List.mem_cons_of_mem _ hxs)

/-- C7: `clean_genres` equals the spec pipeline — keep exactly the subjects
whose lowercase-trimmed form is outside the ignore set, that contain no digit
and are at most 50 characters long, canonicalize each through the table at
its lowercase key (else title-case it), deduplicate case-insensitively
keeping first occurrences, truncate to five — so its output has length at
most 5, no two entries equal case-insensitively, and first-seen order. -/
theorem clean_genres_spec (subjects : List String) :
    clean_genres subjects = cleanGenresSpec subjects ∧
    (clean_genres subjects).length ≤ 5 ∧
    (clean_genres subjects).Pairwise (fun x y => pyLowerStr x ≠ pyLowerStr y) := by
  refine ⟨?_, ?_, ?_⟩
  · unfold clean_genres cleanGenresSpec
    rw [cleanGenresGo_eq_spec subjects []]
  · unfold clean_genres
    rw [List.length_take]
    exact min_le_left _ _
  · unfold clean_genres
    rw [cleanGenresGo_eq_spec subjects []]
    exact ((dedupCI_pairwise _ []).1).sublist (List.take_sublist _ _)

/-- C8: `select_best_isbn` returns a 13-character all-digit entry of the input
when one exists, else a 10-character entry when one exists, else nothing; the
returned value is always an element of the input and never has any other
length. -/
theorem select_best_isbn_spec (l : List String) :
    ((∃ s ∈ l, s.length = 13 ∧ pyIsDigitStr s = true) →
      ∃ s, select_best_isbn l = some s ∧ s ∈ l ∧ s.length = 13 ∧ pyIsDigitStr s = true) ∧
    ((¬∃ s ∈ l, s.length = 13 ∧ pyIsDigitStr s = true) → (∃ s ∈ l, s.length = 10) →
      ∃ s, select_best_isbn l = some s ∧ s ∈ l ∧ s.length = 10) ∧
    ((¬∃ s ∈ l, s.length = 13 ∧ pyIsDigitStr s = true) → (¬∃ s ∈ l, s.length = 10) →
      select_best_isbn l = none) ∧
    (∀ s, select_best_isbn l = some s → s ∈ l ∧ (s.length = 13 ∨ s.length = 10)) := by
  have h13 : ∀ x, x ∈ l.filter (fun i => decide (i.length = 13) && pyIsDigitStr i) ↔
      (x ∈ l ∧ x.length = 13 ∧ pyIsDigitStr x = true) := by
    intro x
    rw [List.mem_filter]
    simp
  have h10 : ∀ x, x ∈ l.filter (fun i => decide (i.length = 10)) ↔
      (x ∈ l ∧ x.length = 10) := by
    intro x
    rw [List.mem_filter]
    simp
  rcases hl : l with _ | ⟨a, l'⟩
  · refine ⟨?_, ?_, ?_, ?_⟩ <;> simp [select_best_isbn]
  · rw [← hl]
    have hne : l ≠ [] := by rw [hl]; intro h; cases h
    have hsel : select_best_isbn l =
        match l.filter (fun i => decide (i.length = 13) && pyIsDigitStr i) with
        | x :: _ => some x
        | [] =>
          match l.filter (fun i => decide (i.length = 10)) with
          | y :: _ => some y
          | [] => none := by
      unfold select_best_isbn
      rw [if_neg hne]
    refine ⟨?_, ?_, ?_, ?_⟩
    · intro hex
      rcases hf : l.filter (fun i => decide (i.length = 13) && pyIsDigitStr i) with _ | ⟨x, xs⟩
      · rcases hex with ⟨s, hs, h1, h2⟩
        have : s ∈ l.filter (fun i => decide (i.length = 13) && pyIsDigitStr i) :=
          (h13 s).mpr ⟨hs, h1, h2⟩
        rw [hf] at this
        exact absurd this (List.not_mem_nil _)
      · have hx := (h13 x).mp (hf ▸ List.mem_cons_self x xs)
        refine ⟨x, ?_, hx.1, hx.2.1, hx.2.2⟩
        rw [hsel, hf]
    · intro hnex hex
      have hf : l.filter (fun i => decide (i.length = 13) && pyIsDigitStr i) = [] := by
        rw [List.filter_eq_nil_iff]
        intro x hx hpx
        refine hnex ⟨x, hx, ?_⟩
        simpa using hpx
      rcases hg : l.filter (fun i => decide (i.length = 10)) with _ | ⟨y, ys⟩
      · rcases hex with ⟨s, hs, h1⟩
        have : s ∈ l.filter (fun i => decide (i.length = 10)) := (h10 s).mpr ⟨hs, h1⟩
        rw [hg] at this
        exact absurd this (List.not_mem_nil _)
      · have hy := (h10 y).mp (hg ▸ List.mem_cons_self y ys)
        refine ⟨y, ?_, hy.1, hy.2⟩
        rw [hsel, hf, hg]
    · intro hnex13 hnex10
      have hf : l.filter (fun i => decide (i.length = 13) && pyIsDigitStr i) = [] := by
        rw [List.filter_eq_nil_iff]
        intro x hx hpx
        refine hnex13 ⟨x, hx, ?_⟩
        simpa using hpx
      have hg : l.filter (fun i => decide (i.length = 10)) = [] := by
        rw [List.filter_eq_nil_iff]
        intro x hx hpx
        refine hnex10 ⟨x, hx, ?_⟩
        simpa using hpx
      rw [hsel, hf, hg]
    · intro s hsome
      rw [hsel] at hsome
      rcases hf : l.filter (fun i => decide (i.length = 13) && pyIsDigitStr i) with _ | ⟨x, xs⟩
      · rw [hf] at hsome
        rcases hg : l.filter (fun i => decide (i.length = 10)) with _ | ⟨y, ys⟩
        · rw [hg] at hsome
          cases hsome
        · rw [hg] at hsome
          have hy := (h10 y).mp (hg ▸ List.mem_cons_self y ys)
          cases hsome
          exact ⟨hy.1, Or.inr hy.2⟩
      · rw [hf] at hsome
        have hx := (h13 x).mp (hf ▸ List.mem_cons_self x xs)
        cases hsome
        exact ⟨hx.1, Or.inl hx.2.1⟩

/-- Witness for C8 on a concrete mixed list containing a 13-digit ISBN. -/
theorem select_best_isbn_spec_witness :
    ∃ s, select_best_isbn ["abc", "0441013597", "9780441013593"] = some s ∧
      s ∈ ["abc", "0441013597", "9780441013593"] ∧ s.length = 13 ∧ pyIsDigitStr s = true :=
  (select_best_isbn_spec ["abc", "0441013597", "9780441013593"]).1
    ⟨"9780441013593", by simp, by decide, by decide⟩

/-- An association lookup either returns the default or an entry of the list. -/
theorem lookupD_cases (l : List (Nat × Nat)) (k d : Nat) :
    lookupD l k d = d ∨ (k, lookupD l k d) ∈ l := by
  induction l with
  | nil => left; rfl
  | cons p rest ih =>
    rcases p with ⟨k', v⟩
    by_cases h : k = k'
    · right
      rw [show lookupD ((k', v) :: rest) k d = v from by simp [lookupD, h]]
      rw [h]
      exact List.mem_cons_self _ _
    · rw [show lookupD ((k', v) :: rest) k d = lookupD rest k d from by simp [lookupD, h]]
      rcases ih with h' | h'
      · left; exact h'
      · right; exact List.mem_cons_of_mem _ h'

/-- Invariant of a `j2len` row before processing row `i`: every recorded run
ends inside the `b`-window, is no longer than its distance into the
`b`-window, and no longer than the number of processed `a`-rows. -/
def J2Inv (alo blo bhi i : Nat) (l : List (Nat × Nat)) : Prop :=
  ∀ p ∈ l, blo ≤ p.1 ∧ p.1 < bhi ∧ p.2 ≤ p.1 + 1 - blo ∧ p.2 ≤ i - alo

/-- Invariant of the best triple: the matched block lies inside both windows. -/
def BestInv (alo ahi blo bhi : Nat) (t : Nat × Nat × Nat) : Prop :=
  alo ≤ t.1 ∧ t.1 + t.2.2 ≤ ahi ∧ blo ≤ t.2.1 ∧ t.2.1 + t.2.2 ≤ bhi

/-- The inner loop preserves both invariants. -/
theorem flmInner_inv (alo ahi blo bhi i : Nat) (j2len : List (Nat × Nat))
    (hi1 : alo ≤ i) (hi2 : i < ahi) (hj : J2Inv alo blo bhi i j2len) :
    ∀ (js : List Nat) (best : Nat × Nat × Nat) (newRow : List (Nat × Nat)),
      BestInv alo ahi blo bhi best → J2Inv alo blo bhi (i + 1) newRow →
      BestInv alo ahi blo bhi (flmInner blo bhi i j2len js best newRow).1 ∧
      J2Inv alo blo bhi (i + 1) (flmInner blo bhi i j2len js best newRow).2 := by
  intro js
  induction js with
  | nil => intro best newRow hb hn; exact ⟨hb, hn⟩
  | cons j js ih =>
    intro best newRow hb hn
    by_cases h1 : j < blo
    · rw [show flmInner blo bhi i j2len (j :: js) best newRow =
          flmInner blo bhi i j2len js best newRow from by
        simp [flmInner, h1]]
      exact ih best newRow hb hn
    · by_cases h2 : bhi ≤ j
      · rw [show flmInner blo bhi i j2len (j :: js) best newRow = (best, newRow) from by
          simp [flmInner, h1, h2]]
        exact ⟨hb, hn⟩
      · have hjlo : blo ≤ j := Nat.not_lt.mp h1
        have hjhi : j < bhi := Nat.not_le.mp h2
        have hk2 : (if j = 0 then 0 else lookupD j2len (j - 1) 0) + 1 ≤ j + 1 - blo ∧
            (if j = 0 then 0 else lookupD j2len (j - 1) 0) + 1 ≤ i + 1 - alo := by
          by_cases hj0 : j = 0
          · rw [if_pos hj0]
            subst hj0
            omega
          · rw [if_neg hj0]
            rcases lookupD_cases j2len (j - 1) 0 with hv | hv
            · rw [hv]; omega
            · have := hj _ hv
              simp only at this
              omega
        rw [show flmInner blo bhi i j2len (j :: js) best newRow =
            flmInner blo bhi i j2len js
              (if best.2.2 < (if j = 0 then 0 else lookupD j2len (j - 1) 0) + 1 then
                (i + 1 - ((if j = 0 then 0 else lookupD j2len (j - 1) 0) + 1),
                 j + 1 - ((if j = 0 then 0 else lookupD j2len (j - 1) 0) + 1),
                 (if j = 0 then 0 else lookupD j2len (j - 1) 0) + 1)
              else best)
              ((j, (if j = 0 then 0 else lookupD j2len (j - 1) 0) + 1) :: newRow) from by
          simp [flmInner, h1, h2]]
        apply ih
        · by_cases hbk : best.2.2 < (if j = 0 then 0 else lookupD j2len (j - 1) 0) + 1
          · rw [if_pos hbk]
            refine ⟨?_, ?_, ?_, ?_⟩ <;> simp only <;> omega
          · rw [if_neg hbk]
            exact hb
        · intro p hp
          rcases List.mem_cons.mp hp with rfl | hp'
          · refine ⟨hjlo, hjhi, ?_, ?_⟩ <;> simp only <;> omega
          · exact hn p hp'

/-- The row loop preserves the best-triple invariant. -/
theorem flmRows_inv (a b : List Char) (alo ahi blo bhi : Nat) :
    ∀ (n i : Nat) (best : Nat × Nat × Nat) (j2len : List (Nat × Nat)),
      alo ≤ i → i + n ≤ ahi →
      BestInv alo ahi blo bhi best → J2Inv alo blo bhi i j2len →
      BestInv alo ahi blo bhi (flmRows a b blo bhi n i best j2len) := by
  intro n
  induction n with
  | zero => intro i best j2len _ _ hb _; exact hb
  | succ n ih =>
    intro i best j2len hi hn hb hj
    have hstep := flmInner_inv alo ahi blo bhi i j2len hi (by omega) hj
      (b2j b (a.getD i ' ')) best [] hb
      (by intro p hp; exact absurd hp (List.not_mem_nil _))
    exact ih (i + 1) _ _ (by omega) (by omega) hstep.1
      (by
        intro p hp
        exact hstep.2 p hp)

/-- `find_longest_match` returns a block lying inside both windows. -/
theorem find_longest_match_bounds (a b : List Char) (alo ahi blo bhi : Nat)
    (h1 : alo ≤ ahi) (h2 : blo ≤ bhi) :
    BestInv alo ahi blo bhi (find_longest_match a b alo ahi blo bhi) := by
  unfold find_longest_match
  apply flmRows_inv a b alo ahi blo bhi (ahi - alo) alo (alo, blo, 0) []
    (Nat.le_refl alo) (by omega)
  · refine ⟨Nat.le_refl _, ?_, Nat.le_refl _, ?_⟩ <;> simp only <;> omega
  · intro p hp
    exact absurd hp (List.not_mem_nil _)

/-- The total matched size never exceeds either window width. -/
theorem matchTotalAux_le (a b : List Char) :
    ∀ (fuel alo ahi blo bhi : Nat), alo ≤ ahi → blo ≤ bhi →
      matchTotalAux a b fuel alo ahi blo bhi ≤ ahi - alo ∧
      matchTotalAux a b fuel alo ahi blo bhi ≤ bhi - blo := by
  intro fuel
  induction fuel with
  | zero => intro alo ahi blo bhi _ _; exact ⟨Nat.zero_le _, Nat.zero_le _⟩
  | succ fuel ih =>
    intro alo ahi blo bhi h1 h2
    obtain ⟨hb1, hb2, hb3, hb4⟩ := find_longest_match_bounds a b alo ahi blo bhi h1 h2
    show (if (find_longest_match a b alo ahi blo bhi).2.2 = 0 then 0 else _) ≤ _ ∧
      (if (find_longest_match a b alo ahi blo bhi).2.2 = 0 then 0 else _) ≤ _
    set m := find_longest_match a b alo ahi blo bhi with hm
    by_cases hk : m.2.2 = 0
    · rw [if_pos hk]
      exact ⟨Nat.zero_le _, Nat.zero_le _⟩
    · rw [if_neg hk]
      have hleft : (if alo < m.1 ∧ blo < m.2.1 then
          matchTotalAux a b fuel alo m.1 blo m.2.1 else 0) ≤ m.1 - alo ∧
          (if alo < m.1 ∧ blo < m.2.1 then
          matchTotalAux a b fuel alo m.1 blo m.2.1 else 0) ≤ m.2.1 - blo := by
        by_cases hc : alo < m.1 ∧ blo < m.2.1
        · simpa [hc] using ih alo m.1 blo m.2.1 (by omega) (by omega)
        · simp [hc]
      have hright : (if m.1 + m.2.2 < ahi ∧ m.2.1 + m.2.2 < bhi then
          matchTotalAux a b fuel (m.1 + m.2.2) ahi (m.2.1 + m.2.2) bhi else 0) ≤
            ahi - (m.1 + m.2.2) ∧
          (if m.1 + m.2.2 < ahi ∧ m.2.1 + m.2.2 < bhi then
          matchTotalAux a b fuel (m.1 + m.2.2) ahi (m.2.1 + m.2.2) bhi else 0) ≤
            bhi - (m.2.1 + m.2.2) := by
        by_cases hc : m.1 + m.2.2 < ahi ∧ m.2.1 + m.2.2 < bhi
        · simpa [hc] using ih (m.1 + m.2.2) ahi (m.2.1 + m.2.2) bhi (by omega) (by omega)
        · simp [hc]
      omega

/-- The matched total is at most the length of the first string. -/
theorem matchTotal_le_left (a b : List Char) : matchTotal a b ≤ a.length := by
  have := (matchTotalAux_le a b (a.length + 1) 0 a.length 0 b.length
    (Nat.zero_le _) (Nat.zero_le _)).1
  simpa using this

/-- The matched total is at most the length of the second string. -/
theorem matchTotal_le_right (a b : List Char) : matchTotal a b ≤ b.length := by
  have := (matchTotalAux_le a b (a.length + 1) 0 a.length 0 b.length
    (Nat.zero_le _) (Nat.zero_le _)).2
  simpa using this

/-- The similarity ratio is nonnegative. -/
theorem pyRatio_nonneg (a b : List Char) : 0 ≤ pyRatio a b := by
  unfold pyRatio
  split
  · norm_num
  · positivity

/-- The similarity ratio is at most one. -/
theorem pyRatio_le_one (a b : List Char) : pyRatio a b ≤ 1 := by
  unfold pyRatio
  split
  · exact le_refl 1
  · rename_i h
    have hpos : (0 : ℚ) < (a.length : ℚ) + (b.length : ℚ) := by
      have : 0 < a.length + b.length := Nat.pos_of_ne_zero h
      exact_mod_cast this
    rw [div_le_one hpos]
    have h1 := matchTotal_le_left a b
    have h2 := matchTotal_le_right a b
    have : 2 * matchTotal a b ≤ a.length + b.length := by omega
    exact_mod_cast this

/-- C6: the match score equals `0.6` times the case-insensitive sequence
similarity of the titles plus `0.4` times the case-insensitive sequence
similarity of the query author against the space-joined candidate author
list; it always lies in `[0, 1]`; and it is a pure function of its inputs, so
identical inputs always yield the identical score. -/
theorem compute_match_score_spec (query_title query_author : String) (doc : SearchDoc) :
    compute_match_score query_title query_author doc =
      (6 / 10 : ℚ) * pyRatio (pyLower query_title) (pyLower (doc.title.getD "")) +
      (4 / 10 : ℚ) *
        pyRatio (pyLower query_author)
          (pyLower (String.intercalate " " (doc.author_name.getD []))) ∧
    0 ≤ compute_match_score query_title query_author doc ∧
    compute_match_score query_title query_author doc ≤ 1 ∧
    ∀ t a d, query_title = t → query_author = a → doc = d →
      compute_match_score query_title query_author doc = compute_match_score t a d := by
  have ht0 := pyRatio_nonneg (pyLower query_title) (pyLower (doc.title.getD ""))
  have ht1 := pyRatio_le_one (pyLower query_title) (pyLower (doc.title.getD ""))
  have ha0 := pyRatio_nonneg (pyLower query_author)
    (pyLower (String.intercalate " " (doc.author_name.getD [])))
  have ha1 := pyRatio_le_one (pyLower query_author)
    (pyLower (String.intercalate " " (doc.author_name.getD [])))
  refine ⟨?_, ?_, ?_, ?_⟩
  · unfold compute_match_score
    ring
  · unfold compute_match_score
    nlinarith
  · unfold compute_match_score
    nlinarith
  · intro t a d h1 h2 h3
    rw [h1, h2, h3]

/-- Witness for C6 at a concrete query and candidate. -/
theorem compute_match_score_spec_witness :
    (0 ≤ compute_match_score "Dune" "Frank Herbert" docZero ∧
     compute_match_score "Dune" "Frank Herbert" docZero ≤ 1) ∧
    compute_match_score "Dune" "Frank Herbert" docZero =
      compute_match_score "Dune" "Frank Herbert" docZero :=
  ⟨⟨(compute_match_score_spec "Dune" "Frank Herbert" docZero).2.1,
    (compute_match_score_spec "Dune" "Frank Herbert" docZero).2.2.1⟩,
   (compute_match_score_spec "Dune" "Frank Herbert" docZero).2.2.2
     "Dune" "Frank Herbert" docZero rfl rfl rfl⟩

/-- Invariant characterization of the scoring fold of `enrich_book`: either no
candidate ever strictly beats the running score, or the result is the
first-seen candidate attaining the strict maximum. -/
theorem bestFold_go (title author : String) :
    ∀ (docs : List SearchDoc) (b0 : Option SearchDoc) (s0 : ℚ),
      (docs.foldl (fun acc doc =>
          let score := compute_match_score title author doc
          if acc.2 < score then (some doc, score) else acc) (b0, s0) = (b0, s0) ∧
        ∀ x ∈ docs, compute_match_score title author x ≤ s0) ∨
      (∃ d pre post,
        docs.foldl (fun acc doc =>
          let score := compute_match_score title author doc
          if acc.2 < score then (some doc, score) else acc) (b0, s0) =
            (some d, compute_match_score title author d) ∧
        docs = pre ++ d :: post ∧ s0 < compute_match_score title author d ∧
        (∀ x ∈ pre, compute_match_score title author x < compute_match_score title author d) ∧
        (∀ x ∈ post, compute_match_score title author x ≤ compute_match_score title author d)) := by
  intro docs
  induction docs with
  | nil =>
    intro b0 s0
    left
    exact ⟨rfl, fun x hx => absurd hx (List.not_mem_nil _)⟩
  | cons doc rest ih =>
    intro b0 s0
    by_cases hlt : s0 < compute_match_score title author doc
    · have hstep : List.foldl (fun acc doc =>
          let score := compute_match_score title author doc
          if acc.2 < score then (some doc, score) else acc) (b0, s0) (doc :: rest) =
          List.foldl (fun acc doc =>
            let score := compute_match_score title author doc
            if acc.2 < score then (some doc, score) else acc)
            (some doc, compute_match_score title author doc) rest := by
        rw [List.foldl_cons]
        simp only [if_pos hlt]
      rcases ih (some doc) (compute_match_score title author doc) with ⟨hr, hall⟩ | hmax
      · right
        exact ⟨doc, [], rest, by rw [hstep, hr], rfl, hlt,
          fun x hx => absurd hx (List.not_mem_nil _), hall⟩
      · rcases hmax with ⟨d, pre, post, hfold, heq, hlt2, hpre, hpost⟩
        right
        refine ⟨d, doc :: pre, post, by rw [hstep, hfold], by rw [heq]; rfl, ?_, ?_, hpost⟩
        · exact lt_trans hlt hlt2
        · intro x hx
          rcases List.mem_cons.mp hx with rfl | hx'
          · exact hlt2
          · exact hpre x hx'
    · have hstep : List.foldl (fun acc doc =>
          let score := compute_match_score title author doc
          if acc.2 < score then (some doc, score) else acc) (b0, s0) (doc :: rest) =
          List.foldl (fun acc doc =>
            let score := compute_match_score title author doc
            if acc.2 < score then (some doc, score) else acc) (b0, s0) rest := by
        rw [List.foldl_cons]
        simp only [if_neg hlt]
      rcases ih b0 s0 with ⟨hr, hall⟩ | hmax
      · left
        refine ⟨by rw [hstep, hr], ?_⟩
        intro x hx
        rcases List.mem_cons.mp hx with rfl | hx'
        · exact not_lt.mp hlt
        · exact hall x hx'
      · rcases hmax with ⟨d, pre, post, hfold, heq, hlt2, hpre, hpost⟩
        right
        refine ⟨d, doc :: pre, post, by rw [hstep, hfold], by rw [heq]; rfl, hlt2, ?_, hpost⟩
        intro x hx
        rcases List.mem_cons.mp hx with rfl | hx'
        · exact lt_of_le_of_lt (not_lt.mp hlt) hlt2
        · exact hpre x hx'

/-- When the fold selects a candidate, it is the first-seen strict maximum,
its score is positive, and the reported score is its own. -/
theorem bestFold_first_max (title author : String) (docs : List SearchDoc)
    (d : SearchDoc) (s : ℚ) (h : bestFold title author docs = (some d, s)) :
    compute_match_score title author d = s ∧ 0 < s ∧
    ∃ pre post, docs = pre ++ d :: post ∧
      (∀ x ∈ pre, compute_match_score title author x < s) ∧
      (∀ x ∈ post, compute_match_score title author x ≤ s) := by
  have hb : docs.foldl (fun acc doc =>
      let score := compute_match_score title author doc
      if acc.2 < score then (some doc, score) else acc) (none, 0) = (some d, s) := h
  rcases bestFold_go title author docs none 0 with ⟨hr, _⟩ | hmax
  · rw [hb] at hr
    cases hr
  · rcases hmax with ⟨d', pre, post, hfold, heq, hlt, hpre, hpost⟩
    rw [hb] at hfold
    have hd : d' = d := by
      have := congrArg Prod.fst hfold
      simpa using this.symm
    subst hd
    have hs : compute_match_score title author d' = s := by
      have := congrArg Prod.snd hfold
      simpa using this.symm
    rw [hs] at hlt hpre hpost
    exact ⟨hs, hlt, pre, post, heq, hpre, hpost⟩

/-- Scores strictly below `0.5` bucket to confidence `none`. -/
theorem bucketConfidence_of_lt_half (s : ℚ) (h : s < 1 / 2) :
    bucketConfidence s = "none" := by
  unfold bucketConfidence
  rw [if_neg (by linarith), if_neg (by linarith), if_neg (by linarith)]

/-- When the best candidate's `edition_key` is an empty list, `enrich_book`
escapes with `IndexError` from `[...][0]`. -/
theorem enrich_book_index_crash (o : Oracle) (now title author : String) (n : Nat)
    (docs : List SearchDoc) (d : SearchDoc) (s : ℚ)
    (ho : o.searchResp title author = SearchResponse.ok n docs) (hn : n ≠ 0)
    (hbest : bestFold title author docs = (some d, s)) (hek : d.edition_key = some []) :
    enrich_book o now title author = Except.error PyExn.indexError := by
  unfold enrich_book
  simp only [ho]
  rw [if_neg hn, hbest]
  simp [editionKeyHead, hek]

/-- The exactly matching candidate for "Dune" by "Frank Herbert". -/
def docDune : SearchDoc :=
  { title := some "Dune", author_name := some ["Frank Herbert"],
    first_publish_year := some 1965, isbn := some ["9780441013593"],
    subject := some ["Science Fiction"], key := some "/works/OL893415W" }

/-- Oracle returning exactly the one exact candidate. -/
def oracleDune : Oracle :=
  { isbnResp := fun _ => IsbnResponse.notFound,
    workResp := fun _ => WorkResponse.transportError "connection refused",
    searchResp := fun _ _ => SearchResponse.ok 1 [docDune] }

/-- A candidate sharing no character with the query "Dune" / "Frank Herbert". -/
def docQ : SearchDoc := { title := some "Q", author_name := some [] }

/-- Oracle returning exactly the zero-scoring candidate `docQ`. -/
def oracleQ : Oracle :=
  { isbnResp := fun _ => IsbnResponse.notFound,
    workResp := fun _ => WorkResponse.transportError "connection refused",
    searchResp := fun _ _ => SearchResponse.ok 1 [docQ] }

/-- A weak candidate: title "e" overlaps "Dune" in one character, empty author
list, populated metadata, no `edition_key`. Its score is `6/25 = 0.24`. -/
def docLow : SearchDoc :=
  { title := some "e", author_name := some [],
    first_publish_year := some 1999, isbn := some ["9780441013593"],
    subject := some ["Sci-Fi"], key := some "/works/OL1W" }

/-- Oracle returning exactly the weak candidate `docLow`. -/
def oracleLow : Oracle :=
  { isbnResp := fun _ => IsbnResponse.notFound,
    workResp := fun _ => WorkResponse.transportError "connection refused",
    searchResp := fun _ _ => SearchResponse.ok 1 [docLow] }

/-- The weak candidate with an empty (but present) `edition_key` list. -/
def docLowCrash : SearchDoc :=
  { title := some "e", author_name := some [], edition_key := some [] }

/-- Oracle returning exactly the crashing weak candidate. -/
def oracleLowCrash : Oracle :=
  { isbnResp := fun _ => IsbnResponse.notFound,
    workResp := fun _ => WorkResponse.transportError "connection refused",
    searchResp := fun _ _ => SearchResponse.ok 1 [docLowCrash] }

/-- The exact candidate scores `1.0`. -/
theorem score_docDune : compute_match_score "Dune" "Frank Herbert" docDune = 1 := by
  unfold compute_match_score docDune
  simp only [Option.getD]
  rw [pyRatio_eval _ _ 4 4 4 (by decide) (by decide) (by decide) (by decide),
      pyRatio_eval _ _ 13 13 13 (by decide) (by decide) (by decide) (by decide)]
  norm_num

/-- The disjoint candidate `docQ` scores `0`. -/
theorem score_docQ : compute_match_score "Dune" "Frank Herbert" docQ = 0 := by
  unfold compute_match_score docQ
  simp only [Option.getD]
  rw [pyRatio_eval _ _ 0 4 1 (by decide) (by decide) (by decide) (by decide),
      pyRatio_eval _ _ 0 13 0 (by decide) (by decide) (by decide) (by decide)]
  norm_num

/-- The weak candidate `docLow` scores `6/25`. -/
theorem score_docLow : compute_match_score "Dune" "Frank Herbert" docLow = 6 / 25 := by
  unfold compute_match_score docLow
  simp only [Option.getD]
  rw [pyRatio_eval _ _ 1 4 1 (by decide) (by decide) (by decide) (by decide),
      pyRatio_eval _ _ 0 13 0 (by decide) (by decide) (by decide) (by decide)]
  norm_num

/-- The crashing weak candidate `docLowCrash` scores `6/25` as well. -/
theorem score_docLowCrash :
    compute_match_score "Dune" "Frank Herbert" docLowCrash = 6 / 25 := by
  unfold compute_match_score docLowCrash
  simp only [Option.getD]
  rw [pyRatio_eval _ _ 1 4 1 (by decide) (by decide) (by decide) (by decide),
      pyRatio_eval _ _ 0 13 0 (by decide) (by decide) (by decide) (by decide)]
  norm_num

/-- The fold over the single exact candidate selects it with score `1`. -/
theorem bestFold_docDune :
    bestFold "Dune" "Frank Herbert" [docDune] = (some docDune, 1) := by
  rw [bestFold_single, score_docDune, if_pos (by norm_num : (0 : ℚ) < 1)]

/-- The fold over the single weak candidate selects it with score `6/25`. -/
theorem bestFold_docLow :
    bestFold "Dune" "Frank Herbert" [docLow] = (some docLow, 6 / 25) := by
  rw [bestFold_single, score_docLow, if_pos (by norm_num : (0 : ℚ) < 6 / 25)]

/-- The fold over the single crashing weak candidate selects it. -/
theorem bestFold_docLowCrash :
    bestFold "Dune" "Frank Herbert" [docLowCrash] = (some docLowCrash, 6 / 25) := by
  rw [bestFold_single, score_docLowCrash, if_pos (by norm_num : (0 : ℚ) < 6 / 25)]

/-- C5 (amended): whenever the search returns candidates and some candidate
scores strictly above zero, the selected candidate is the strict maximum with
ties kept by the first-seen candidate in source order, and any record the
lookup returns carries the confidence bucket (`high ≥ 0.9 > medium ≥ 0.7 >
low ≥ 0.5 > none`) of that maximal score; a single candidate matching title
and author exactly scores `1.0` and buckets to `high`.  (When every candidate
scores `0`, no candidate is selected and the lookup raises instead.) -/
theorem fuzzy_selects_first_max (o : Oracle) (now title author : String) (n : Nat)
    (docs : List SearchDoc) (d : SearchDoc) (s : ℚ)
    (ho : o.searchResp title author = SearchResponse.ok n docs) (hn : n ≠ 0)
    (hbest : bestFold title author docs = (some d, s)) :
    (compute_match_score title author d = s ∧ 0 < s ∧
     ∃ pre post, docs = pre ++ d :: post ∧
       (∀ x ∈ pre, compute_match_score title author x < s) ∧
       (∀ x ∈ post, compute_match_score title author x ≤ s)) ∧
    (∀ r, enrich_book o now title author = Except.ok r →
      r.match_confidence = bucketConfidence s) := by
  constructor
  · exact bestFold_first_max title author docs d s hbest
  · intro r hr
    unfold enrich_book at hr
    simp only [ho] at hr
    rw [if_neg hn] at hr
    simp only [hbest] at hr
    cases hek : editionKeyHead d.edition_key with
    | error e =>
      rw [hek] at hr
      simp at hr
    | ok ek =>
      rw [hek] at hr
      simp only [Except.ok.injEq] at hr
      subst hr
      rfl

/-- Witness for C5: the Dune scenario — one exact candidate, score `1.0`,
confidence `high`. -/
theorem fuzzy_selects_first_max_witness :
    bestFold "Dune" "Frank Herbert" [docDune] = (some docDune, 1) ∧
    bucketConfidence 1 = "high" ∧
    ((compute_match_score "Dune" "Frank Herbert" docDune = 1 ∧ (0 : ℚ) < 1 ∧
      ∃ pre post, [docDune] = pre ++ docDune :: post ∧
        (∀ x ∈ pre, compute_match_score "Dune" "Frank Herbert" x < 1) ∧
        (∀ x ∈ post, compute_match_score "Dune" "Frank Herbert" x ≤ 1)) ∧
     (∀ r, enrich_book oracleDune "" "Dune" "Frank Herbert" = Except.ok r →
        r.match_confidence = bucketConfidence 1)) :=
  ⟨bestFold_docDune,
   by unfold bucketConfidence; rw [if_pos (by norm_num : (9 : ℚ) / 10 ≤ 1)],
   fuzzy_selects_first_max oracleDune "" "Dune" "Frank Herbert" 1 [docDune] docDune 1
     rfl (by decide) bestFold_docDune⟩

/-- Counterexample to C5 as stated: a non-empty candidate list whose only
candidate scores `0` — no candidate is selected (the fold keeps `None`) and
the lookup raises instead of returning a record with a bucketed confidence. -/
theorem fuzzy_zero_score_counterexample :
    bestFold "Dune" "Frank Herbert" [docQ] = (none, 0) ∧
    enrich_book oracleQ "" "Dune" "Frank Herbert" =
      Except.error PyExn.attributeErrorNone := by
  have hb : bestFold "Dune" "Frank Herbert" [docQ] = (none, 0) := by
    rw [bestFold_single, score_docQ, if_neg (lt_irrefl 0)]
  refine ⟨hb, ?_⟩
  apply enrich_book_crash _ _ _ _ 1 [docQ] rfl (by decide)
  rw [hb]

/-- C10 (amended): when the search returns candidates, the best score is
strictly positive but below `0.5`, and the best candidate's `edition_key`
list (when present) is non-empty, the returned record has confidence `none`,
carries no error string, and is still populated from that best candidate —
its official title, official author, best ISBN, subjects and work key. -/
theorem low_score_still_populated (o : Oracle) (now title author : String) (n : Nat)
    (docs : List SearchDoc) (d : SearchDoc) (s : ℚ)
    (ho : o.searchResp title author = SearchResponse.ok n docs) (hn : n ≠ 0)
    (hbest : bestFold title author docs = (some d, s)) (h0 : 0 < s) (hh : s < 1 / 2)
    (hek : d.edition_key ≠ some []) :
    ∃ r, enrich_book o now title author = Except.ok r ∧
      r.match_confidence = "none" ∧ r.error = none ∧
      r.official_title = d.title ∧
      r.official_author = joinAuthors (d.author_name.getD []) ∧
      r.isbn = select_best_isbn (d.isbn.getD []) ∧
      r.subjects = (d.subject.getD []).take 10 ∧
      r.open_library_work_key = d.key := by
  have hekh : ∃ ek, editionKeyHead d.edition_key = Except.ok ek := by
    cases hed : d.edition_key with
    | none => exact ⟨none, rfl⟩
    | some l =>
      cases l with
      | nil => exact absurd hed hek
      | cons x xs => exact ⟨some x, rfl⟩
  rcases hekh with ⟨ek, hekk⟩
  refine ⟨_, enrich_book_ok o now title author n docs d s ek ho hn hbest hekk,
    ?_, rfl, rfl, rfl, rfl, rfl, rfl⟩
  exact bucketConfidence_of_lt_half s hh

/-- Witness for C10: the weak candidate `docLow` at score `6/25` yields a
populated record with confidence `none` and no error. -/
theorem low_score_still_populated_witness :
    (0 : ℚ) < 6 / 25 ∧ (6 / 25 : ℚ) < 1 / 2 ∧
    (∃ r, enrich_book oracleLow "" "Dune" "Frank Herbert" = Except.ok r ∧
      r.match_confidence = "none" ∧ r.error = none ∧
      r.official_title = docLow.title ∧
      r.official_author = joinAuthors (docLow.author_name.getD []) ∧
      r.isbn = select_best_isbn (docLow.isbn.getD []) ∧
      r.subjects = (docLow.subject.getD []).take 10 ∧
      r.open_library_work_key = docLow.key) :=
  ⟨by norm_num, by norm_num,
   low_score_still_populated oracleLow "" "Dune" "Frank Herbert" 1 [docLow] docLow
     (6 / 25) rfl (by decide) bestFold_docLow (by norm_num) (by norm_num) (by decide)⟩

/-- Counterexample to C10 as stated: the same weak-match conditions with the
best candidate carrying an empty `edition_key` list — the code raises
`IndexError` from `[...][0]` instead of returning any populated record. -/
theorem low_score_crash_counterexample :
    bestFold "Dune" "Frank Herbert" [docLowCrash] = (some docLowCrash, 6 / 25) ∧
    (0 : ℚ) < 6 / 25 ∧ (6 / 25 : ℚ) < 1 / 2 ∧
    enrich_book oracleLowCrash "" "Dune" "Frank Herbert" =
      Except.error PyExn.indexError :=
  ⟨bestFold_docLowCrash, by norm_num, by norm_num,
   enrich_book_index_crash oracleLowCrash "" "Dune" "Frank Herbert" 1 [docLowCrash]
     docLowCrash (6 / 25) rfl (by decide) bestFold_docLowCrash rfl⟩
